import Mathlib

/-!
Shallow embedding of the localshare discovery subsystem.

The repository contains two generations of the discovery code:
* `src/src/discovery.h` — the older version: a `Peer` value struct, a
  `Resolver` performing a secondary `QHostInfo` hostname→address lookup,
  and a `Browser` keeping a `QSet<QString>` of discovered usernames.
  Embedded below in namespace `DiscoveryV1`.
* `src/unnamed/part_000` (a later `discovery.h`) — `DnsPeer` /
  `LocalDnsPeer` objects, a `Browser` owning `DnsPeer` children and
  filtering against the local service name.  Embedded in namespace
  `DiscoveryV2`.

Strings are modelled as `List Char` (`Str`); `QString` comparisons are
byte-for-byte equality.
-/

abbrev Str := List Char

namespace DiscoveryV2

/-- Embedding of `QString::section ('@', 0, -2)` as used by `username_of`:
split the string at the LAST `'@'`, returning `some (prefixPart, suffixPart)`,
or `none` when the string contains no `'@'`.  A later `'@'` (found in the
tail) takes precedence over an earlier one. -/
def splitAtLastAt : Str → Option (Str × Str)
  | [] => none
  | c :: rest =>
    match splitAtLastAt rest with
    | some (pre, suf) => some (c :: pre, suf)
    | none => if c = '@' then some ([], rest) else none

/-- Model of `username_of` from `src/unnamed/part_000` lines 27-32: everything before
the last `'@'` if that part is non-empty, otherwise the whole input
(fallback for non-compliant names).  Total: never fails or throws. -/
def username_of (service_name : Str) : Str :=
  match splitAtLastAt service_name with
  | some (pre, _) => if pre = [] then service_name else pre
  | none => service_name

/-- Model of `service_name_of` from `src/unnamed/part_000` lines 33-35:
`QString ("%1@%2").arg (username, suffix)`. -/
def service_name_of (username : Str) (suffix : Str) : Str :=
  username ++ '@' :: suffix

/-- Modelled from the spec: `suffix_of` appears only in the spec's round-trip
law (§8); the source defines no such function.  Per the spec (§3), the
suffix is the part after the last `'@'` (empty when there is no `'@'`). -/
def suffix_of (service_name : Str) : Str :=
  match splitAtLastAt service_name with
  | some (_, suf) => suf
  | none => []

theorem splitAtLastAt_eq_none_iff (s : Str) :
    splitAtLastAt s = none ↔ '@' ∉ s := by
  induction s with
  | nil => simp [splitAtLastAt]
  | cons c rest ih =>
    simp only [splitAtLastAt, List.mem_cons]
    cases h : splitAtLastAt rest with
    | some p => simp [h] at ih; simp [ih]
    | none =>
      simp [h] at ih
      by_cases hc : c = '@' <;> simp [hc, ih]
      exact fun h => (hc h.symm).elim

theorem splitAtLastAt_recompose {s pre suf : Str}
    (h : splitAtLastAt s = some (pre, suf)) : s = pre ++ '@' :: suf := by
  induction s generalizing pre suf with
  | nil => simp [splitAtLastAt] at h
  | cons c rest ih =>
    simp only [splitAtLastAt] at h
    cases hrest : splitAtLastAt rest with
    | some p =>
      obtain ⟨p1, p2⟩ := p
      rw [hrest] at h
      injection h with h
      cases h
      simp [ih hrest]
    | none =>
      rw [hrest] at h
      by_cases hc : c = '@'
      · rw [if_pos hc] at h
        injection h with h
        cases h
        simp [hc]
      · simp [hc] at h

theorem splitAtLastAt_append {u suf : Str} (hsuf : '@' ∉ suf) :
    splitAtLastAt (u ++ '@' :: suf) = some (u, suf) := by
  induction u with
  | nil =>
    simp only [List.nil_append, splitAtLastAt]
    rw [(splitAtLastAt_eq_none_iff suf).mpr hsuf]
    simp
  | cons c rest ih =>
    simp only [List.cons_append, splitAtLastAt, List.append_eq, ih]

/-- Model of `DnsPeer` from `src/unnamed/part_000` lines 45-77: a discovered peer.
`service_name` is `const` after discovery; `port` is in host byte order. -/
structure DnsPeer where
  service_name : Str
  hostname : Str
  port : Nat
deriving DecidableEq, Repr

/-- Model of `DnsPeer::set_hostname` (lines 64-69): returns the updated object and
whether the `hostname_changed` signal was emitted. -/
def set_hostname (p : DnsPeer) (new_hostname : Str) : DnsPeer × Bool :=
  if p.hostname ≠ new_hostname then
    ({ p with hostname := new_hostname }, true)
  else
    (p, false)

/-- Model of `DnsPeer::set_port` (lines 71-76): returns the updated object and
whether the `port_changed` signal was emitted. -/
def set_port (p : DnsPeer) (new_port : Nat) : DnsPeer × Bool :=
  if p.port ≠ new_port then
    ({ p with port := new_port }, true)
  else
    (p, false)

/-- Signals of `LocalDnsPeer` (lines 93-96). -/
inductive LocalSignal where
  | requested_service_name_changed
  | username_changed
  | service_name_changed
deriving DecidableEq, Repr

/-- Model of `LocalDnsPeer` from `src/unnamed/part_000` lines 84-133: the local
instance.  `service_name` is the accepted service name (empty until
registration completes); `suffix` is the per-host disambiguator. -/
structure LocalDnsPeer where
  suffix : Str
  requested_username : Str
  service_name : Str
  port : Nat
deriving DecidableEq, Repr

/-- Model of `LocalDnsPeer::get_requested_service_name` (lines 110-112). -/
def get_requested_service_name (lp : LocalDnsPeer) : Str :=
  service_name_of lp.requested_username lp.suffix

/-- Model of `LocalDnsPeer::set_requested_username` (lines 113-118). -/
def set_requested_username (lp : LocalDnsPeer) (new_username : Str) :
    LocalDnsPeer × List LocalSignal :=
  if lp.requested_username ≠ new_username then
    ({ lp with requested_username := new_username },
      [LocalSignal.requested_service_name_changed])
  else
    (lp, [])

/-- Model of `LocalDnsPeer::set_service_name` (lines 122-130): updates the stored
service name and emits `service_name_changed` when it differs, then
`username_changed` when the derived username differs. -/
def set_service_name (lp : LocalDnsPeer) (new_service_name : Str) :
    LocalDnsPeer × List LocalSignal :=
  let old_username := username_of lp.service_name
  let step :=
    if lp.service_name ≠ new_service_name then
      ({ lp with service_name := new_service_name },
        [LocalSignal.service_name_changed])
    else
      (lp, [])
  if old_username ≠ username_of step.1.service_name then
    (step.1, step.2 ++ [LocalSignal.username_changed])
  else
    step

/-- Model of `ServiceRecord::register_callback` (lines 280-291), success path only:
store the facility-provided accepted name verbatim into the local peer.
A non-zero error code takes the `failure` path and leaves the peer alone. -/
def register_callback (lp : LocalDnsPeer) (error_code : Nat) (accepted : Str) :
    LocalDnsPeer × List LocalSignal :=
  if error_code ≠ 0 then
    (lp, [])
  else
    set_service_name lp accepted

/-- Signal `Browser::added` (line 364). -/
inductive BrowserSignal where
  | added (peer : DnsPeer)
deriving DecidableEq, Repr

/-- Model of `Browser` from `src/unnamed/part_000` lines 360-439: `peers` are the
owned `DnsPeer` children in `findChildren` (creation/reparenting) order;
`local_peer` is the parent `LocalDnsPeer`. -/
structure Browser where
  local_peer : LocalDnsPeer
  peers : List DnsPeer
deriving DecidableEq, Repr

/-- Model of `Browser::find_peer_by_service_name` (lines 427-432): first owned
`DnsPeer` whose service name matches. -/
def find_peer_by_service_name : List DnsPeer → Str → Option DnsPeer
  | [], _ => none
  | p :: rest, name =>
    if p.service_name = name then some p
    else find_peer_by_service_name rest name

/-- Effect of `p->set_hostname (...); p->set_port (...)` applied to the
first peer in the list matching `peer`'s service name (the object
`find_peer_by_service_name` returned), as in lines 403-407. -/
def update_first_peer : List DnsPeer → DnsPeer → List DnsPeer
  | [], _ => []
  | p :: rest, peer =>
    if p.service_name = peer.service_name then
      (set_port (set_hostname p peer.hostname).1 peer.port).1 :: rest
    else
      p :: update_first_peer rest peer

/-- Effect of `p->deleteLater ()` on the first peer matching `name`. -/
def remove_first_peer : List DnsPeer → Str → List DnsPeer
  | [], _ => []
  | p :: rest, name =>
    if p.service_name = name then rest
    else p :: remove_first_peer rest name

/-- Model of `Browser::peer_resolved` (lines 402-418): update an already-tracked peer
in place (no signal), otherwise add and emit `added` unless the resolved
name equals the local service name (self-discovery, ignored). -/
def peer_resolved (b : Browser) (peer : DnsPeer) : Browser × List BrowserSignal :=
  match find_peer_by_service_name b.peers peer.service_name with
  | some _ =>
    ({ b with peers := update_first_peer b.peers peer }, [])
  | none =>
    if b.local_peer.service_name ≠ peer.service_name then
      ({ b with peers := b.peers ++ [peer] }, [BrowserSignal.added peer])
    else
      (b, [])

/-- Model of `Browser::service_name_changed` slot (lines 420-424): drop the tracked
peer matching the CURRENT (new) local service name, if any. -/
def browser_service_name_changed (b : Browser) : Browser :=
  match find_peer_by_service_name b.peers b.local_peer.service_name with
  | some _ =>
    { b with peers := remove_first_peer b.peers b.local_peer.service_name }
  | none => b

/-- A change of the local service name as the Browser observes it:
`LocalDnsPeer::set_service_name` runs, and the connected
`Browser::service_name_changed` slot fires iff the `service_name_changed`
signal was emitted (connection made in `Browser`'s constructor, line 368). -/
def local_name_change (b : Browser) (new_service_name : Str) : Browser :=
  let r := set_service_name b.local_peer new_service_name
  let b' := { b with local_peer := r.1 }
  if LocalSignal.service_name_changed ∈ r.2 then
    browser_service_name_changed b'
  else
    b'

/-- Model of `Browser::browser_callback` (lines 394-398), remove branch (`add` flag
clear): destroy the tracked peer with that service name if present,
otherwise do nothing.  This Browser version emits no `removed` signal;
removal is realized as destruction of the `DnsPeer` child. -/
def browser_remove (b : Browser) (service_name : Str) : Browser :=
  match find_peer_by_service_name b.peers service_name with
  | some _ => { b with peers := remove_first_peer b.peers service_name }
  | none => b

end DiscoveryV2

namespace DiscoveryV1

/-- Modelled from the spec: the `Peer` value struct lives in
`localshare.h`, which is not under `src/`; per §3 and the §8 scenario it
carries `username`, `hostname`, `port` and a resolved `address`. -/
structure Peer where
  username : Str
  hostname : Str
  port : Nat
  address : Str
deriving DecidableEq, Repr

/-- Outcome of one run of `Resolver::hostname_resolved`
(`src/src/discovery.h` lines 185-197). -/
inductive ResolveOutcome where
  /-- Model of `qFatal ("QHostInfo returned empty list")`: the whole process aborts. -/
  | fatalProcessAbort
  /-- Model of `emit peer_complete (peer_info)` followed by `deleteLater ()`. -/
  | complete (peer : Peer)
  /-- Model of `qWarning` then `deleteLater ()`: the Resolver terminates itself
  quietly, emitting nothing. -/
  | failedQuietly
deriving DecidableEq, Repr

/-- Model of `Resolver` state (`src/src/discovery.h` lines 123-198):
`hostname_lookup_id = none` models the sentinel `-1`. -/
structure Resolver where
  hostname_lookup_id : Option Nat
  peer_info : Peer
deriving DecidableEq, Repr

/-- Model of `Resolver::hostname_resolved` (lines 185-197): clear the lookup id;
on `QHostInfo::NoError` (`error_code = 0`) with an empty address list call
`qFatal`, otherwise take the first address and emit `peer_complete`;
on a lookup error, warn and self-delete without emitting. -/
def hostname_resolved (r : Resolver) (error_code : Nat)
    (addresses : List Str) : ResolveOutcome × Resolver :=
  let r' := { r with hostname_lookup_id := none }
  if error_code = 0 then
    match addresses with
    | [] => (ResolveOutcome.fatalProcessAbort, r')
    | a :: _ => (ResolveOutcome.complete { r'.peer_info with address := a }, r')
  else
    (ResolveOutcome.failedQuietly, r')

/-- Modelled from the spec: the hostname-to-address lookup facility
(`QHostInfo`, §6: "asynchronous, cancellable by an opaque token").
`pending` holds the tokens of in-flight lookups; `next` is the next fresh
token, so issued tokens are always `< next`. -/
structure LookupFacility where
  pending : List Nat
  next : Nat
deriving DecidableEq, Repr

/-- Well-formedness of the facility state: every pending token was issued
(`< next`) and tokens are unique. -/
def LookupFacilityWF (f : LookupFacility) : Prop :=
  (∀ m ∈ f.pending, m < f.next) ∧ f.pending.Nodup

/-- Model of `QHostInfo::abortHostLookup`: the token's lookup is cancelled and its
completion callback will not be delivered. -/
def abortHostLookup (f : LookupFacility) (n : Nat) : LookupFacility :=
  { f with pending := f.pending.erase n }

/-- Model of `QHostInfo::lookupHost`: start a lookup, returning its fresh token. -/
def lookupHost (f : LookupFacility) : Nat × LookupFacility :=
  (f.next, { pending := f.next :: f.pending, next := f.next + 1 })

/-- Model of `Resolver::~Resolver` (lines 161-164): abort the pending hostname
lookup when `hostname_lookup_id != -1`. -/
def destroy_resolver (r : Resolver) (f : LookupFacility) : LookupFacility :=
  match r.hostname_lookup_id with
  | some n => abortHostLookup f n
  | none => f

/-- Events the lookup facility can process after some point in time:
a new lookup starts, a pending lookup completes (delivering its callback),
or a lookup is aborted. -/
inductive FacilityOp where
  | start
  | complete (n : Nat)
  | abort (n : Nat)
deriving DecidableEq, Repr

/-- One facility step; returns the new state and the token whose completion
callback fired, if any.  A completion can only be delivered for a token
still in `pending`. -/
def facilityStep (f : LookupFacility) : FacilityOp → LookupFacility × Option Nat
  | FacilityOp.start => ((lookupHost f).2, none)
  | FacilityOp.complete n =>
    if n ∈ f.pending then ({ f with pending := f.pending.erase n }, some n)
    else (f, none)
  | FacilityOp.abort n => (abortHostLookup f n, none)

/-- Run a sequence of facility events, collecting every token whose
completion callback fired. -/
def facilityRun (f : LookupFacility) : List FacilityOp → LookupFacility × List Nat
  | [] => (f, [])
  | op :: ops =>
    let s := facilityStep f op
    let rest := facilityRun s.1 ops
    (rest.1, (s.2.toList) ++ rest.2)

/-- Model of `Browser` from `src/src/discovery.h` lines 203-270: a set of discovered
usernames plus the local instance's username. -/
structure BrowserV1 where
  discovered_peers : List Str
  instance_username : Str
deriving DecidableEq, Repr

/-- Signals of `BrowserV1` (lines 217-219). -/
inductive BrowserV1Signal where
  | added (peer : Peer)
  | removed (username : Str)
deriving DecidableEq, Repr

/-- Model of `Browser::browser_callback` remove branch (lines 241-252): if the name
differs from the local username and is tracked, erase it and emit
`removed`; an unknown name is only logged (`qWarning`), with no state
change and no signal. -/
def browser_remove_v1 (b : BrowserV1) (name : Str) :
    BrowserV1 × List BrowserV1Signal :=
  if name ≠ b.instance_username then
    if name ∈ b.discovered_peers then
      ({ b with discovered_peers := b.discovered_peers.erase name },
        [BrowserV1Signal.removed name])
    else
      (b, [])
  else
    (b, [])

/-- Model of `Browser::resolved_peer_added` (lines 260-269): add a resolved peer
unless it is the local instance or already tracked (then only logged). -/
def resolved_peer_added (b : BrowserV1) (peer : Peer) :
    BrowserV1 × List BrowserV1Signal :=
  if peer.username ≠ b.instance_username then
    if peer.username ∉ b.discovered_peers then
      ({ b with discovered_peers := peer.username :: b.discovered_peers },
        [BrowserV1Signal.added peer])
    else
      (b, [])
  else
    (b, [])

end DiscoveryV1

open DiscoveryV1 DiscoveryV2

/-- C4: for every well-formed service name containing at least one `'@'`
(the part before the last `'@'` being non-empty), recomposing via
`service_name_of (username_of s) (suffix_of s)` reproduces `s` byte for
byte. -/
theorem roundtrip_wellformed (s pre suf : Str)
    (hsplit : splitAtLastAt s = some (pre, suf)) (hpre : pre ≠ []) :
    service_name_of (username_of s) (suffix_of s) = s := by
  have hs := splitAtLastAt_recompose hsplit
  have h1 : username_of s = pre := by
    unfold username_of
    rw [hsplit]
    simp [hpre]
  have h2 : suffix_of s = suf := by
    unfold suffix_of
    rw [hsplit]
  rw [h1, h2]
  unfold service_name_of
  exact hs.symm

/-- Witness for C4 at `s = "bob@h2"`. -/
theorem roundtrip_wellformed_witness :
    service_name_of (username_of "bob@h2".toList) (suffix_of "bob@h2".toList)
      = "bob@h2".toList :=
  roundtrip_wellformed "bob@h2".toList "bob".toList "h2".toList
    (by decide) (by decide)

/-- C9: for every string with no `'@'`, `username_of` returns it unchanged;
`username_of` is a total function (never fails or throws). -/
theorem username_of_no_at (s : Str) (h : '@' ∉ s) : username_of s = s := by
  unfold username_of
  rw [(splitAtLastAt_eq_none_iff s).mpr h]

/-- Witness for C9 at `s = "carol"`. -/
theorem username_of_no_at_witness : username_of "carol".toList = "carol".toList :=
  username_of_no_at "carol".toList (by decide)

/-- C10: `DnsPeer::set_hostname` and `DnsPeer::set_port` are no-ops (state
unchanged, no signal) when the new value equals the stored one, and emit
their changed signal exactly when the new value differs. -/
theorem set_hostname_port_signal_iff (p : DnsPeer) (v : Str) (w : Nat) :
    (v = p.hostname → set_hostname p v = (p, false)) ∧
    ((set_hostname p v).2 = true ↔ v ≠ p.hostname) ∧
    (set_hostname p v).1.hostname = v ∧
    (w = p.port → set_port p w = (p, false)) ∧
    ((set_port p w).2 = true ↔ w ≠ p.port) ∧
    (set_port p w).1.port = w := by
  refine ⟨fun hv => ?_, ?_, ?_, fun hw => ?_, ?_, ?_⟩
  · subst hv
    simp [set_hostname]
  · by_cases hv : v = p.hostname
    · subst hv
      simp [set_hostname]
    · have hv' : p.hostname ≠ v := fun h => hv h.symm
      simp [set_hostname, hv', hv]
  · by_cases hv : v = p.hostname
    · subst hv
      simp [set_hostname]
    · have hv' : p.hostname ≠ v := fun h => hv h.symm
      simp [set_hostname, hv']
  · subst hw
    simp [set_port]
  · by_cases hw : w = p.port
    · subst hw
      simp [set_port]
    · have hw' : p.port ≠ w := fun h => hw h.symm
      simp [set_port, hw', hw]
  · by_cases hw : w = p.port
    · subst hw
      simp [set_port]
    · have hw' : p.port ≠ w := fun h => hw h.symm
      simp [set_port, hw']

/-- Witness for C10 at a concrete peer and values. -/
theorem set_hostname_port_signal_iff_witness :
    (set_hostname ⟨"a@b".toList, "h".toList, 4⟩ "h".toList
        = (⟨"a@b".toList, "h".toList, 4⟩, false)) ∧
    (set_port ⟨"a@b".toList, "h".toList, 4⟩ 4
        = (⟨"a@b".toList, "h".toList, 4⟩, false)) :=
  ⟨(set_hostname_port_signal_iff ⟨"a@b".toList, "h".toList, 4⟩ "h".toList 4).1 rfl,
   (set_hostname_port_signal_iff ⟨"a@b".toList, "h".toList, 4⟩ "h".toList 4).2.2.2.1 rfl⟩

/-- C2 counterexample: a successful hostname lookup returning an empty
address list does NOT make the Resolver terminate only itself — the code
calls `qFatal`, aborting the whole process.  Evaluated at a concrete
Resolver awaiting lookup token 7. -/
theorem hostname_resolved_empty_not_self_only :
    (hostname_resolved ⟨some 7, ⟨"carol".toList, "h3".toList, 4242, []⟩⟩ 0 []).1
        = ResolveOutcome.fatalProcessAbort ∧
    ResolveOutcome.fatalProcessAbort ≠ ResolveOutcome.failedQuietly := by
  exact ⟨rfl, by decide⟩

/-- C2 amended: a successful lookup with an empty address list aborts the
whole process via `qFatal` (emitting no peer-completion); a lookup ERROR is
what is logged and terminates only the Resolver, without emitting. -/
theorem hostname_resolved_empty_fatal (r : Resolver) :
    (hostname_resolved r 0 []).1 = ResolveOutcome.fatalProcessAbort ∧
    (∀ e, e ≠ 0 → ∀ addrs, (hostname_resolved r e addrs).1
        = ResolveOutcome.failedQuietly) := by
  refine ⟨rfl, fun e he addrs => ?_⟩
  unfold hostname_resolved
  simp [he]

/-- Witness for the amended C2 at a concrete Resolver and error code. -/
theorem hostname_resolved_empty_fatal_witness :
    (hostname_resolved ⟨some 3, ⟨[], [], 0, []⟩⟩ 0 []).1
        = ResolveOutcome.fatalProcessAbort ∧
    (hostname_resolved ⟨some 3, ⟨[], [], 0, []⟩⟩ 1 []).1
        = ResolveOutcome.failedQuietly :=
  ⟨(hostname_resolved_empty_fatal ⟨some 3, ⟨[], [], 0, []⟩⟩).1,
   (hostname_resolved_empty_fatal ⟨some 3, ⟨[], [], 0, []⟩⟩).2 1 (by decide) []⟩

/-- C6: a peer-disappeared notification for an untracked service name is a
no-op in both Browser generations: state unchanged, no `removed` signal,
no error.  (`src/src/discovery.h` lines 241-252 and `src/unnamed/part_000`
lines 394-398; the older version merely logs a warning.) -/
theorem unknown_remove_is_noop (b2 : Browser) (b1 : BrowserV1) (name : Str)
    (h2 : find_peer_by_service_name b2.peers name = none)
    (h1 : name ∉ b1.discovered_peers) :
    browser_remove b2 name = b2 ∧ browser_remove_v1 b1 name = (b1, []) := by
  constructor
  · unfold browser_remove
    rw [h2]
  · unfold browser_remove_v1
    by_cases hn : name = b1.instance_username <;> simp [hn, h1]

/-- Witness for C6 at concrete Browsers tracking nothing named `"x@h"`. -/
theorem unknown_remove_is_noop_witness :
    browser_remove ⟨⟨"h1".toList, "me".toList, "me@h1".toList, 1⟩,
        [⟨"bob@h2".toList, "h2".toList, 2⟩]⟩ "x@h".toList
      = ⟨⟨"h1".toList, "me".toList, "me@h1".toList, 1⟩,
        [⟨"bob@h2".toList, "h2".toList, 2⟩]⟩ ∧
    browser_remove_v1 ⟨["bob".toList], "me".toList⟩ "x@h".toList
      = (⟨["bob".toList], "me".toList⟩, []) :=
  unknown_remove_is_noop _ _ _ (by decide) (by decide)

namespace DiscoveryV2

theorem find_peer_none_iff (l : List DnsPeer) (n : Str) :
    find_peer_by_service_name l n = none ↔ n ∉ l.map DnsPeer.service_name := by
  induction l with
  | nil => simp [find_peer_by_service_name]
  | cons p rest ih =>
    simp only [find_peer_by_service_name, List.map_cons, List.mem_cons]
    by_cases hp : p.service_name = n
    · simp [hp]
    · simp only [if_neg hp, ih]
      constructor
      · intro h hn
        rcases hn with hn | hn
        · exact hp hn.symm
        · exact h hn
      · intro h hn
        exact h (Or.inr hn)

theorem find_peer_append_singleton (l : List DnsPeer) (p : DnsPeer) (n : Str)
    (h : find_peer_by_service_name l n = none) (hp : p.service_name = n) :
    find_peer_by_service_name (l ++ [p]) n = some p := by
  induction l with
  | nil => simp [find_peer_by_service_name, hp]
  | cons c rest ih =>
    simp only [find_peer_by_service_name] at h ⊢
    by_cases hc : c.service_name = n
    · rw [if_pos hc] at h
      exact absurd h (by simp)
    · rw [if_neg hc] at h ⊢
      exact ih h

theorem set_hostname_fst (p : DnsPeer) (h : Str) :
    (set_hostname p h).1 = { p with hostname := h } := by
  unfold set_hostname
  by_cases hh : p.hostname = h
  · simp [hh]
    cases p
    simp_all
  · simp [hh]

theorem set_port_fst (p : DnsPeer) (w : Nat) :
    (set_port p w).1 = { p with port := w } := by
  unfold set_port
  by_cases hw : p.port = w
  · simp [hw]
    cases p
    simp_all
  · simp [hw]

theorem update_first_peer_append (l : List DnsPeer) (p q : DnsPeer)
    (h : find_peer_by_service_name l q.service_name = none)
    (hp : p.service_name = q.service_name) :
    update_first_peer (l ++ [p]) q
      = l ++ [⟨p.service_name, q.hostname, q.port⟩] := by
  induction l with
  | nil =>
    simp only [List.nil_append, update_first_peer, if_pos hp,
      set_hostname_fst, set_port_fst]
  | cons c rest ih =>
    simp only [find_peer_by_service_name] at h
    by_cases hc : c.service_name = q.service_name
    · rw [if_pos hc] at h
      exact absurd h (by simp)
    · rw [if_neg hc] at h
      simp only [List.cons_append, update_first_peer, if_neg hc, List.append_eq, ih h]

end DiscoveryV2

/-- C1: with `accepted_service_name = "alice@host1"` and no tracked peer of
that name, `Browser::peer_resolved` on a peer named `"alice@host1"`
discards it: no `added` signal, Browser state unchanged. -/
theorem browser_self_discovery_discarded (b : Browser) (peer : DnsPeer)
    (hlocal : b.local_peer.service_name = "alice@host1".toList)
    (hnotrack : find_peer_by_service_name b.peers "alice@host1".toList = none)
    (hpeer : peer.service_name = "alice@host1".toList) :
    peer_resolved b peer = (b, []) := by
  unfold peer_resolved
  rw [hpeer, hnotrack, hlocal]
  simp

/-- Witness for C1 at a concrete Browser tracking one unrelated peer. -/
theorem browser_self_discovery_discarded_witness :
    peer_resolved
        ⟨⟨"host1".toList, "alice".toList, "alice@host1".toList, 1⟩,
          [⟨"bob@h2".toList, "h2".toList, 2⟩]⟩
        ⟨"alice@host1".toList, "h1".toList, 5⟩
      = (⟨⟨"host1".toList, "alice".toList, "alice@host1".toList, 1⟩,
          [⟨"bob@h2".toList, "h2".toList, 2⟩]⟩, []) :=
  browser_self_discovery_discarded _ _ rfl (by decide) rfl

/-- C5: the first resolution of a fresh, non-self service name emits exactly
one `added` signal; a second resolution of the same name emits zero signals
and instead rewrites the tracked entry's hostname and port in place,
leaving the set of tracked service names unchanged. -/
theorem first_resolution_adds_once_then_updates (b : Browser) (p q : DnsPeer)
    (hnew : find_peer_by_service_name b.peers p.service_name = none)
    (hnotself : b.local_peer.service_name ≠ p.service_name)
    (hsame : q.service_name = p.service_name) :
    (peer_resolved b p).2 = [BrowserSignal.added p] ∧
    (peer_resolved (peer_resolved b p).1 q).2 = [] ∧
    find_peer_by_service_name
        (peer_resolved (peer_resolved b p).1 q).1.peers p.service_name
      = some ⟨p.service_name, q.hostname, q.port⟩ ∧
    (peer_resolved (peer_resolved b p).1 q).1.peers.map DnsPeer.service_name
      = (peer_resolved b p).1.peers.map DnsPeer.service_name := by
  have h1 : peer_resolved b p
      = ({ b with peers := b.peers ++ [p] }, [BrowserSignal.added p]) := by
    unfold peer_resolved
    rw [hnew]
    simp [hnotself]
  have hfound : find_peer_by_service_name (b.peers ++ [p]) q.service_name
      = some p := by
    rw [hsame]
    exact find_peer_append_singleton b.peers p p.service_name hnew rfl
  have hnewq : find_peer_by_service_name b.peers q.service_name = none := by
    rw [hsame]; exact hnew
  have h2 : peer_resolved (peer_resolved b p).1 q
      = ({ b with peers := b.peers ++ [⟨p.service_name, q.hostname, q.port⟩] },
          []) := by
    rw [h1]
    unfold peer_resolved
    simp only [hfound]
    rw [update_first_peer_append b.peers p q hnewq hsame.symm]
  refine ⟨by rw [h1], by rw [h2], ?_, ?_⟩
  · rw [h2]
    exact find_peer_append_singleton b.peers _ p.service_name hnew rfl
  · rw [h2, h1]
    simp

/-- Witness for C5: a fresh `"carol@h3"` peer is added once, then its second
resolution only refreshes hostname and port. -/
theorem first_resolution_adds_once_then_updates_witness :
    (peer_resolved ⟨⟨"h1".toList, "me".toList, "me@h1".toList, 1⟩, []⟩
        ⟨"carol@h3".toList, "h3.local".toList, 4242⟩).2
      = [BrowserSignal.added ⟨"carol@h3".toList, "h3.local".toList, 4242⟩] ∧
    (peer_resolved
        (peer_resolved ⟨⟨"h1".toList, "me".toList, "me@h1".toList, 1⟩, []⟩
          ⟨"carol@h3".toList, "h3.local".toList, 4242⟩).1
        ⟨"carol@h3".toList, "h3b".toList, 5000⟩).2 = [] ∧
    find_peer_by_service_name
        (peer_resolved
          (peer_resolved ⟨⟨"h1".toList, "me".toList, "me@h1".toList, 1⟩, []⟩
            ⟨"carol@h3".toList, "h3.local".toList, 4242⟩).1
          ⟨"carol@h3".toList, "h3b".toList, 5000⟩).1.peers "carol@h3".toList
      = some ⟨"carol@h3".toList, "h3b".toList, 5000⟩ := by
  have h := first_resolution_adds_once_then_updates
    ⟨⟨"h1".toList, "me".toList, "me@h1".toList, 1⟩, []⟩
    ⟨"carol@h3".toList, "h3.local".toList, 4242⟩
    ⟨"carol@h3".toList, "h3b".toList, 5000⟩
    (by decide) (by decide) (by decide)
  exact ⟨h.1, h.2.1, h.2.2.1⟩

namespace DiscoveryV2

theorem filter_peers_eq_self (l : List DnsPeer) (n : Str)
    (h : n ∉ l.map DnsPeer.service_name) :
    l.filter (fun x => decide (x.service_name ≠ n)) = l := by
  induction l with
  | nil => rfl
  | cons p rest ih =>
    simp only [List.map_cons, List.mem_cons, not_or] at h
    obtain ⟨hp, hrest⟩ := h
    have hp' : p.service_name ≠ n := fun hq => hp hq.symm
    simp [List.filter_cons, hp', ih hrest]
    intro a ha hq
    exact hrest (hq ▸ List.mem_map_of_mem DnsPeer.service_name ha)

theorem remove_first_of_none (l : List DnsPeer) (n : Str)
    (h : n ∉ l.map DnsPeer.service_name) :
    remove_first_peer l n = l := by
  induction l with
  | nil => rfl
  | cons p rest ih =>
    simp only [List.map_cons, List.mem_cons, not_or] at h
    obtain ⟨hp, hrest⟩ := h
    have hp' : p.service_name ≠ n := fun hq => hp hq.symm
    simp only [remove_first_peer, if_neg hp', ih hrest]

theorem remove_first_eq_filter (l : List DnsPeer) (n : Str)
    (h : (l.map DnsPeer.service_name).Nodup) :
    remove_first_peer l n = l.filter (fun x => decide (x.service_name ≠ n)) := by
  induction l with
  | nil => rfl
  | cons p rest ih =>
    simp only [List.map_cons, List.nodup_cons] at h
    obtain ⟨hp, hrest⟩ := h
    by_cases hc : p.service_name = n
    · subst hc
      simp only [remove_first_peer, if_pos rfl, List.filter_cons]
      rw [(filter_peers_eq_self rest p.service_name hp)]
      simp
    · simp only [remove_first_peer, if_neg hc, List.filter_cons, ih hrest]
      simp [hc]

theorem set_service_name_changed (lp : LocalDnsPeer) (n : Str)
    (h : lp.service_name ≠ n) :
    (set_service_name lp n).1 = { lp with service_name := n } ∧
    LocalSignal.service_name_changed ∈ (set_service_name lp n).2 := by
  unfold set_service_name
  simp only [if_pos h]
  by_cases hu : username_of lp.service_name
      = username_of ({ lp with service_name := n } : LocalDnsPeer).service_name
  · simp [hu]
  · simp [hu]

theorem browser_slot_peers (b : Browser) :
    browser_service_name_changed b
      = { b with peers := remove_first_peer b.peers b.local_peer.service_name } := by
  unfold browser_service_name_changed
  cases hf : find_peer_by_service_name b.peers b.local_peer.service_name with
  | some p => rfl
  | none =>
    have := remove_first_of_none b.peers b.local_peer.service_name
      ((find_peer_none_iff _ _).mp hf)
    rw [this]

end DiscoveryV2

/-- C3 counterexample: the claim says a rename discards a tracked entry
matching the PREVIOUS self name, but the code checks only the new name.
Concretely: a Browser tracks `"old@h1"`, the local service name changes
from `"old@h1"` to `"new@h1"`, and the stale `"old@h1"` entry persists. -/
theorem stale_self_entry_persists :
    (local_name_change
        ⟨⟨"h1".toList, "old".toList, "old@h1".toList, 1⟩,
          [⟨"old@h1".toList, "x".toList, 2⟩]⟩
        "new@h1".toList).peers
      = [⟨"old@h1".toList, "x".toList, 2⟩] ∧
    "old@h1".toList ∈
      ((local_name_change
          ⟨⟨"h1".toList, "old".toList, "old@h1".toList, 1⟩,
            [⟨"old@h1".toList, "x".toList, 2⟩]⟩
          "new@h1".toList).peers.map DnsPeer.service_name) := by
  decide

/-- C3 amended: on a change of the local service name, the Browser discards
only a tracked entry matching the NEW self name (the previous self name is
not re-checked); with distinct tracked names, the tracked list after the
change is exactly the old list with entries named like the new name
filtered out, and the local service name is updated. -/
theorem local_name_change_removes_new_name_only (b : Browser) (new_name : Str)
    (hne : b.local_peer.service_name ≠ new_name)
    (hnodup : (b.peers.map DnsPeer.service_name).Nodup) :
    (local_name_change b new_name).local_peer.service_name = new_name ∧
    (local_name_change b new_name).peers
      = b.peers.filter (fun x => decide (x.service_name ≠ new_name)) := by
  obtain ⟨hfst, hmem⟩ := set_service_name_changed b.local_peer new_name hne
  unfold local_name_change
  simp only [hfst, if_pos hmem, browser_slot_peers]
  exact ⟨by simp, remove_first_eq_filter b.peers new_name hnodup⟩

/-- Witness for the amended C3: an entry matching the new name `"new@h1"`
is discarded while `"bob@h2"` stays. -/
theorem local_name_change_removes_new_name_only_witness :
    (local_name_change
        ⟨⟨"h1".toList, "me".toList, "me@h1".toList, 1⟩,
          [⟨"new@h1".toList, "x".toList, 2⟩, ⟨"bob@h2".toList, "y".toList, 3⟩]⟩
        "new@h1".toList).local_peer.service_name = "new@h1".toList ∧
    (local_name_change
        ⟨⟨"h1".toList, "me".toList, "me@h1".toList, 1⟩,
          [⟨"new@h1".toList, "x".toList, 2⟩, ⟨"bob@h2".toList, "y".toList, 3⟩]⟩
        "new@h1".toList).peers
      = [⟨"new@h1".toList, "x".toList, 2⟩,
          ⟨"bob@h2".toList, "y".toList, 3⟩].filter
          (fun x => decide (x.service_name ≠ "new@h1".toList)) :=
  local_name_change_removes_new_name_only _ _ (by decide) (by decide)

namespace DiscoveryV2

theorem username_of_compose (u suf : Str) (hu : u ≠ []) (hsuf : '@' ∉ suf) :
    username_of (service_name_of u suf) = u := by
  unfold service_name_of username_of
  rw [splitAtLastAt_append hsuf]
  simp [hu]

theorem set_service_name_fst_name (lp : LocalDnsPeer) (n : Str) :
    (set_service_name lp n).1.service_name = n := by
  by_cases h : lp.service_name = n
  · simp [set_service_name, h]
  · by_cases hu : username_of lp.service_name = username_of n
    · simp [set_service_name, h, hu]
    · simp [set_service_name, h, hu]

end DiscoveryV2

/-- C8 counterexample: the accepted name is stored verbatim from the
facility, which may truncate it (`ServiceRecord` docs, lines 253-254), so
the invariant "non-empty `accepted_service_name` decomposes to the
`requested_username` current at acceptance" fails.  Concretely: requested
username `"alice"`, suffix `"host1"`, facility accepts the truncated
`"alic"` — the stored name is non-empty yet decomposes to `"alic"`. -/
theorem accepted_name_truncation_breaks_username :
    ((register_callback ⟨"host1".toList, "alice".toList, [], 4⟩ 0
        "alic".toList).1.service_name ≠ []) ∧
    username_of ((register_callback ⟨"host1".toList, "alice".toList, [], 4⟩ 0
        "alic".toList).1.service_name) ≠ "alice".toList := by
  decide

/-- C8 amended: the invariant holds when the facility accepts the requested
service name verbatim (no truncation or rename), the requested username is
non-empty, and the suffix contains no `'@'`: the stored accepted name then
decomposes via `username_of` to the `requested_username` current at
acceptance. -/
theorem register_verbatim_preserves_username (lp : LocalDnsPeer) (accepted : Str)
    (hacc : accepted = service_name_of lp.requested_username lp.suffix)
    (hu : lp.requested_username ≠ [])
    (hsuf : '@' ∉ lp.suffix) :
    username_of ((register_callback lp 0 accepted).1.service_name)
      = lp.requested_username := by
  have hname : (register_callback lp 0 accepted).1.service_name = accepted := by
    unfold register_callback
    simp only [if_neg (by simp : ¬(0 : Nat) ≠ 0)]
    exact set_service_name_fst_name lp accepted
  rw [hname, hacc]
  exact username_of_compose lp.requested_username lp.suffix hu hsuf

/-- Witness for the amended C8: `"alice@host1"` accepted verbatim
decomposes back to `"alice"`. -/
theorem register_verbatim_preserves_username_witness :
    username_of ((register_callback ⟨"host1".toList, "alice".toList, [], 4⟩ 0
        "alice@host1".toList).1.service_name) = "alice".toList :=
  register_verbatim_preserves_username ⟨"host1".toList, "alice".toList, [], 4⟩
    "alice@host1".toList (by decide) (by decide) (by decide)

namespace DiscoveryV1

/-- The tokens the facility can never complete again: `n` is not pending
and every token issued from now on is `≥ next > n`. -/
def TokenDead (n : Nat) (f : LookupFacility) : Prop :=
  n ∉ f.pending ∧ n < f.next

theorem facilityStep_dead {n : Nat} {f : LookupFacility} (op : FacilityOp)
    (h : TokenDead n f) :
    TokenDead n (facilityStep f op).1 ∧ (facilityStep f op).2 ≠ some n := by
  obtain ⟨hpend, hlt⟩ := h
  cases op with
  | start =>
    refine ⟨⟨?_, ?_⟩, by simp [facilityStep, lookupHost]⟩
    · simp only [facilityStep, lookupHost, List.mem_cons, not_or]
      exact ⟨Nat.ne_of_lt hlt, hpend⟩
    · exact Nat.lt_succ_of_lt hlt
  | complete m =>
    by_cases hm : m ∈ f.pending
    · refine ⟨⟨?_, ?_⟩, ?_⟩
      · simp only [facilityStep, if_pos hm]
        exact fun hmem => hpend (List.mem_of_mem_erase hmem)
      · simpa [facilityStep, if_pos hm] using hlt
      · simp only [facilityStep, if_pos hm, ne_eq, Option.some.injEq]
        intro hEq
        exact hpend (hEq ▸ hm)
    · exact ⟨by simpa [facilityStep, if_neg hm] using ⟨hpend, hlt⟩,
        by simp [facilityStep, if_neg hm]⟩
  | abort m =>
    refine ⟨⟨?_, ?_⟩, by simp [facilityStep]⟩
    · simp only [facilityStep, abortHostLookup]
      exact fun hmem => hpend (List.mem_of_mem_erase hmem)
    · simpa [facilityStep, abortHostLookup] using hlt

theorem facilityRun_dead {n : Nat} {f : LookupFacility} (ops : List FacilityOp)
    (h : TokenDead n f) : n ∉ (facilityRun f ops).2 := by
  induction ops generalizing f with
  | nil => simp [facilityRun]
  | cons op ops ih =>
    obtain ⟨hdead, hfire⟩ := facilityStep_dead op h
    simp only [facilityRun, List.mem_append, not_or]
    refine ⟨?_, ih hdead⟩
    cases hval : (facilityStep f op).2 with
    | none => simp
    | some m =>
      simp only [Option.toList, List.mem_singleton]
      intro hEq
      exact hfire (by rw [hval, hEq])

end DiscoveryV1

/-- C7: destroying a Resolver that is awaiting its hostname lookup
(`hostname_lookup_id` set, lookup pending in the facility) aborts the
lookup via its token, so no completion callback for that token fires in
any sequence of subsequent facility events. -/
theorem no_completion_after_destroy (r : Resolver) (f : LookupFacility)
    (n : Nat) (ops : List FacilityOp)
    (hwf : LookupFacilityWF f)
    (hid : r.hostname_lookup_id = some n)
    (hpend : n ∈ f.pending) :
    n ∉ (facilityRun (destroy_resolver r f) ops).2 := by
  obtain ⟨hbound, hnodup⟩ := hwf
  apply facilityRun_dead
  refine ⟨?_, ?_⟩
  · unfold destroy_resolver
    rw [hid]
    exact (List.Nodup.mem_erase_iff hnodup).mp.mt (by simp)
  · have hlt : n < f.next := hbound n hpend
    unfold destroy_resolver
    rw [hid]
    exact hlt

/-- Witness for C7: token 0 is aborted at destruction; later starts,
completions and aborts never fire a completion for token 0. -/
theorem no_completion_after_destroy_witness :
    0 ∉ (facilityRun
        (destroy_resolver ⟨some 0, ⟨[], [], 0, []⟩⟩ ⟨[0], 1⟩)
        [FacilityOp.start, FacilityOp.complete 0, FacilityOp.complete 1,
          FacilityOp.abort 1]).2 :=
  no_completion_after_destroy ⟨some 0, ⟨[], [], 0, []⟩⟩ ⟨[0], 1⟩ 0 _
    (by constructor <;> decide) rfl (by decide)
